import Mathlib

/-!
Shallow embedding of the retrieval core of the day15-ragchatbot repository:
the chunker, the similarity engine, the keyword fallback engine and the
conversation store, together with theorems settling the specification claims.
Python strings are modeled as `String` / `List Char`; Python float scores are
modeled over `ℚ` (the claims under study depend only on comparisons, never on
rounding behaviour).
-/

namespace RagChatbot

/-- Whitespace predicate matching the characters stripped by Python
`str.strip()` and split on by `str.split()` (ASCII range). -/
def isPySpace (c : Char) : Bool :=
  c == ' ' || c == '\t' || c == '\n' || c == '\r' || c == '\x0b' || c == '\x0c'

/-- Model of Python `str.strip()`: drop leading and trailing whitespace. -/
def pyStrip (l : List Char) : List Char :=
  ((l.dropWhile isPySpace).reverse.dropWhile isPySpace).reverse

/-- Model of Python `str.lower()` (ASCII case folding). -/
def pyLower (l : List Char) : List Char :=
  l.map Char.toLower

/-- Helper for `pySplitWs`: accumulates the current word (reversed) while
scanning the input. -/
def wordsAux : List Char → List Char → List (List Char)
  | cur, [] => if cur.isEmpty then [] else [cur.reverse]
  | cur, c :: rest =>
    if isPySpace c then
      if cur.isEmpty then wordsAux [] rest else cur.reverse :: wordsAux [] rest
    else wordsAux (c :: cur) rest

/-- Model of Python `str.split()` with no argument: split on runs of
whitespace, discarding empty pieces. -/
def pySplitWs (l : List Char) : List (List Char) :=
  wordsAux [] l

/-- Model of Python `sep.join(parts)`. -/
def joinSep (sep : String) : List String → String
  | [] => ""
  | [x] => x
  | x :: xs => x ++ sep ++ joinSep sep xs

/-- Prepend a character to the first piece of a split result (or start a new
piece when there is none). -/
def consHead (c : Char) : List (List Char) → List (List Char)
  | [] => [[c]]
  | h :: t => (c :: h) :: t

/-- Model of Python `text.split("\n\n")`: split on the two-character
separator, leftmost and non-overlapping. -/
def splitOnNlNl : List Char → List (List Char)
  | [] => [[]]
  | [c] => [[c]]
  | c1 :: c2 :: rest =>
    if c1 = '\n' ∧ c2 = '\n' then [] :: splitOnNlNl rest
    else consHead c1 (splitOnNlNl (c2 :: rest))

/-- Model of Python `para.split(". ")`. -/
def splitOnDotSpace : List Char → List (List Char)
  | [] => [[]]
  | [c] => [[c]]
  | c1 :: c2 :: rest =>
    if c1 = '.' ∧ c2 = ' ' then [] :: splitOnDotSpace rest
    else consHead c1 (splitOnDotSpace (c2 :: rest))

/-- Does the text contain the two-character paragraph separator anywhere? -/
def hasBlankSep : List Char → Bool
  | [] => false
  | [_] => false
  | c1 :: c2 :: rest =>
    if c1 = '\n' ∧ c2 = '\n' then true else hasBlankSep (c2 :: rest)

/-- Model of the Python tail slice `l[-k:]` (for `k = 0` the slice is the
whole list, as in Python). -/
def pyTailSlice {α : Type} (k : ℕ) (l : List α) : List α :=
  if k = 0 then l else l.drop (l.length - k)

/-! ### Stable descending sort by key

Python `list.sort(reverse=True, key=...)` is a stable descending sort; we
model it by insertion sort, inserting after existing equal keys. -/

/-- Insert an element into a descending-by-key sorted list, after any
elements with an equal key (stability). -/
def insertDesc {α β : Type} [LinearOrder β] (key : α → β) (a : α) : List α → List α
  | [] => [a]
  | b :: l => if key b < key a then a :: b :: l else b :: insertDesc key a l

/-- Stable descending sort by key. -/
def sortDesc {α β : Type} [LinearOrder β] (key : α → β) (l : List α) : List α :=
  l.foldr (insertDesc key) []

theorem length_insertDesc {α β : Type} [LinearOrder β] (key : α → β) (a : α) :
    ∀ l : List α, (insertDesc key a l).length = l.length + 1
  | [] => rfl
  | b :: l => by
    by_cases h : key b < key a <;>
      simp [insertDesc, h, length_insertDesc key a l]

theorem length_sortDesc {α β : Type} [LinearOrder β] (key : α → β) (l : List α) :
    (sortDesc key l).length = l.length := by
  induction l with
  | nil => rfl
  | cons a l ih => simp [sortDesc, List.foldr_cons, length_insertDesc] at *; omega

theorem mem_insertDesc {α β : Type} [LinearOrder β] (key : α → β) (a x : α) :
    ∀ l : List α, x ∈ insertDesc key a l ↔ x = a ∨ x ∈ l
  | [] => by simp [insertDesc]
  | b :: l => by
    by_cases h : key b < key a <;>
      simp [insertDesc, h, mem_insertDesc key a x l] <;> tauto

theorem mem_sortDesc {α β : Type} [LinearOrder β] (key : α → β) (x : α) (l : List α) :
    x ∈ sortDesc key l ↔ x ∈ l := by
  induction l with
  | nil => simp [sortDesc]
  | cons a l ih =>
    simp only [sortDesc, List.foldr_cons] at *
    rw [mem_insertDesc, ih, List.mem_cons]

theorem pairwise_insertDesc {α β : Type} [LinearOrder β] (key : α → β) (a : α) :
    ∀ l : List α, l.Pairwise (fun x y => key y ≤ key x) →
      (insertDesc key a l).Pairwise (fun x y => key y ≤ key x)
  | [], _ => by simp [insertDesc]
  | b :: l, h => by
    rcases List.pairwise_cons.mp h with ⟨hb, hl⟩
    by_cases hba : key b < key a
    · simp only [insertDesc, if_pos hba]
      refine List.pairwise_cons.mpr ⟨?_, h⟩
      intro x hx
      rcases List.mem_cons.mp hx with rfl | hx
      · exact le_of_lt hba
      · exact (hb x hx).trans (le_of_lt hba)
    · simp only [insertDesc, if_neg hba]
      refine List.pairwise_cons.mpr ⟨?_, pairwise_insertDesc key a l hl⟩
      intro x hx
      rcases (mem_insertDesc key a x l).mp hx with rfl | hx
      · exact le_of_not_lt hba
      · exact hb x hx

theorem pairwise_sortDesc {α β : Type} [LinearOrder β] (key : α → β) (l : List α) :
    (sortDesc key l).Pairwise (fun x y => key y ≤ key x) := by
  induction l with
  | nil => simp [sortDesc]
  | cons a l ih => exact pairwise_insertDesc key a _ ih

theorem sortDesc_ne_nil {α β : Type} [LinearOrder β] (key : α → β) {l : List α}
    (h : l ≠ []) : sortDesc key l ≠ [] := by
  intro hcon
  have := length_sortDesc key l
  rw [hcon] at this
  exact h (List.length_eq_zero.mp this.symm)

/-- Every member of a list is bounded by the `foldr max 0` of the list. -/
theorem le_foldr_max (l : List ℕ) : ∀ x ∈ l, x ≤ l.foldr max 0 := by
  induction l with
  | nil => simp
  | cons a t ih =>
    intro x hx
    rcases List.mem_cons.mp hx with rfl | hx
    · exact le_max_left _ _
    · exact (ih x hx).trans (le_max_right _ _)

/-- Pairing each similarity score with its index, mirroring Python
`enumerate` with the components swapped as in the source. -/
def enumFrom : ℕ → List ℚ → List (ℚ × ℕ)
  | _, [] => []
  | i, s :: rest => (s, i) :: enumFrom (i + 1) rest

theorem length_enumFrom : ∀ (i : ℕ) (l : List ℚ), (enumFrom i l).length = l.length
  | _, [] => rfl
  | i, _ :: rest => by simp [enumFrom, length_enumFrom (i + 1) rest]

theorem mem_enumFrom : ∀ (i : ℕ) (l : List ℚ) (p : ℚ × ℕ),
    p ∈ enumFrom i l → p.1 ∈ l ∧ p.2 < i + l.length
  | i, [], p => by simp [enumFrom]
  | i, s :: rest, p => by
    intro hp
    rcases List.mem_cons.mp hp with rfl | hp
    · simp
    · rcases mem_enumFrom (i + 1) rest p hp with ⟨h1, h2⟩
      refine ⟨List.mem_cons_of_mem _ h1, ?_⟩
      simp only [List.length_cons]
      omega

theorem enumFrom_ne_nil (i : ℕ) {l : List ℚ} (h : l ≠ []) : enumFrom i l ≠ [] := by
  cases l with
  | nil => exact absurd rfl h
  | cons a t => simp [enumFrom]

/-! ### Chunker (rag_service.py, chunk_text_smart, lines 19-72) -/

/-- Inner loop of `chunk_text_smart` (lines 38-47): greedy accumulation of
sentences of an oversized paragraph.  Arguments: remaining sentences, chunks
flushed so far, current `temp_chunk`.  Returns the flushed chunks and the
final `temp_chunk`. -/
def innerSentence (chunk_size : ℕ) :
    List (List Char) → List (List Char) → List Char → List (List Char) × List Char
  | [], acc, temp => (acc, temp)
  | sentence :: rest, acc, temp =>
    if temp.length + sentence.length < chunk_size then
      innerSentence chunk_size rest acc
        (if temp.isEmpty then sentence else temp ++ '.' :: ' ' :: sentence)
    else
      innerSentence chunk_size rest
        (if temp.isEmpty then acc else acc ++ [pyStrip temp ++ ['.']]) sentence

/-- Outer loop of `chunk_text_smart` (lines 27-49): greedy accumulation of
paragraphs into chunks, with sentence splitting for oversized paragraphs.
Arguments: remaining paragraphs, chunks flushed so far, `current_chunk`. -/
def paraLoop (chunk_size : ℕ) :
    List (List Char) → List (List Char) → List Char → List (List Char) × List Char
  | [], acc, current => (acc, current)
  | para :: rest, acc, current =>
    if current.length + para.length < chunk_size then
      paraLoop chunk_size rest acc
        (if current.isEmpty then para else current ++ '\n' :: '\n' :: para)
    else
      let acc' := if current.isEmpty then acc else acc ++ [pyStrip current]
      if chunk_size < para.length then
        let r := innerSentence chunk_size (splitOnDotSpace para) acc' []
        paraLoop chunk_size rest r.1 r.2
      else paraLoop chunk_size rest acc' para

/-- Overlap injection phase of `chunk_text_smart` (lines 56-70): every chunk
after the first is prefixed with a word-aligned tail of its predecessor. -/
def addOverlap (chunks : List (List Char)) (overlap : ℕ) : List (List Char) :=
  match chunks with
  | [] => []
  | first :: _ =>
    first :: (List.range (chunks.length - 1)).map (fun i =>
      let prev := chunks.getD i []
      let cur := chunks.getD (i + 1) []
      let prev_words := pySplitWs prev
      let overlap_text :=
        if overlap / 10 < prev_words.length then
          List.intercalate [' '] (pyTailSlice (overlap / 10) prev_words)
        else pyTailSlice overlap prev
      pyStrip (overlap_text ++ ' ' :: cur))

/-- Core of `chunk_text_smart` over character lists: paragraph split,
greedy accumulation, final flush, then overlap injection. -/
def chunkCore (text : List Char) (chunk_size overlap : ℕ) : List (List Char) :=
  let paragraphs := ((splitOnNlNl text).map pyStrip).filter (fun p => !p.isEmpty)
  let res := paraLoop chunk_size paragraphs [] []
  let chunks := if res.2.isEmpty then res.1 else res.1 ++ [pyStrip res.2]
  if 1 < chunks.length ∧ 0 < overlap then addOverlap chunks overlap else chunks

/-- Embeds `chunk_text_smart` (rag_service.py lines 19-72). -/
def chunk_text_smart (text : String) (chunk_size overlap : ℕ) : List String :=
  (chunkCore text.toList chunk_size overlap).map List.asString

/-! ### Similarity engine (embeddings.py, find_similar_chunks, lines 50-85)

The numeric cosine similarity of lines 65-68 (dot product over the product of
norms plus an epsilon) is computed in floating point in the source; the
claims under study depend only on how the resulting scores are filtered,
sorted and truncated, so the per-row score is abstracted as a function
`simOf` from a chunk vector to its score, and the selection logic of lines
70-85 is embedded exactly.  The `numpy` tie order in `argsort` is
unspecified; both sorts are modeled by the stable descending sort above. -/

/-- The `scored_indices` list of embeddings.py lines 70-78: all
`(score, index)` pairs at or above the threshold sorted by descending score,
or, when none reaches it, every pair sorted by descending score (the
`argsort` fallback of lines 74-76). -/
def scoredIndices (simOf : List ℚ → ℚ) (rows : List (List ℚ)) (min_similarity : ℚ) :
    List (ℚ × ℕ) :=
  let enum := enumFrom 0 (rows.map simOf)
  let kept := enum.filter (fun p => decide (min_similarity ≤ p.1))
  if kept = [] then sortDesc Prod.fst enum else sortDesc Prod.fst kept

/-- Embeds `find_similar_chunks` (embeddings.py lines 50-85). -/
def find_similar_chunks (simOf : List ℚ → ℚ) (chunk_embeddings : Option (List (List ℚ)))
    (chunks : List String) (top_k : ℕ) (min_similarity : ℚ) : List (String × ℚ) :=
  match chunk_embeddings with
  | none => []
  | some rows =>
    if rows.length = 0 then []
    else
      (((scoredIndices simOf rows min_similarity).take top_k).filter
          (fun p => decide (p.2 < chunks.length))).map
        (fun p => (chunks.getD p.2 "", p.1))

/-! ### Keyword fallback engine and RAG orchestration (rag_service.py)

The Groq chat completion collaborator is opaque and fallible; each call is
modeled by its outcome, an `Except Unit String` (`Except.error` standing for
`GroqAPIError`).  The query embedding call of line 98 is likewise modeled by
a success flag, its numeric value being absorbed into `simOf`. -/

/-- The fixed follow-up cue phrases (rag_service.py lines 240-249). -/
def follow_up_cues : List String :=
  ["other than that", "what else", "anything else", "something more",
   "tell me more", "what more", "what about the rest",
   "what improvements you can add"]

/-- Embeds `_is_follow_up_question` (rag_service.py lines 236-250). -/
def is_follow_up_question (question : String) : Bool :=
  let q := pyLower (pyStrip question.toList)
  if q.isEmpty then false
  else
    follow_up_cues.any (fun cue => decide (cue.toList <:+: q)) ||
      decide ((pySplitWs q).length ≤ 4)

/-- The follow-up condition in the words of the specification: the question
is non-empty after trimming, and either contains one of the fixed cue
phrases or has four words or fewer. -/
def followUpSpec (question : String) : Prop :=
  pyStrip question.toList ≠ [] ∧
    ((∃ cue ∈ follow_up_cues, cue.toList <:+: pyLower (pyStrip question.toList)) ∨
      (pySplitWs (pyLower (pyStrip question.toList))).length ≤ 4)

/-- Embeds `_get_recent_assistant_answer` (rag_service.py lines 229-233);
history entries are `(role, content)` pairs. -/
def get_recent_assistant_answer (history : List (String × String)) : Option String :=
  (history.reverse.find? (fun m => m.1 == "assistant")).map Prod.snd

/-- Lexical score of one chunk (rag_service.py lines 167-173): the number of
distinct lower-cased question words occurring as substrings of the
lower-cased chunk. -/
def keywordScore (question chunk : String) : ℕ :=
  ((pySplitWs (pyLower question.toList)).dedup).countP
    (fun w => decide (w <:+: pyLower chunk.toList))

/-- The scored chunk list of rag_service.py lines 170-175: `(score, chunk)`
for every chunk with positive score, in document order. -/
def scoredChunks (question : String) (chunks : List String) : List (ℕ × String) :=
  (chunks.map (fun c => (keywordScore question c, c))).filter (fun p => decide (0 < p.1))

/-- The maximum raw score over all scored chunks (rag_service.py lines 213
and 221; the list has been sorted in place by line 177 at that point). -/
def maxRawScore (question : String) (chunks : List String) : ℕ :=
  ((sortDesc Prod.fst (scoredChunks question chunks)).map Prod.fst).foldr max 0

/-- The normalized evidence list of rag_service.py lines 213-217 and 221-225:
top three scored chunks with scores divided by the maximum raw score. -/
def keywordRetrieved (question : String) (chunks : List String) : List (String × ℚ) :=
  let sorted := sortDesc Prod.fst (scoredChunks question chunks)
  let max_score : ℕ := if scoredChunks question chunks = [] then 1 else maxRawScore question chunks
  (sorted.take 3).map (fun p =>
    (p.2, if max_score = 0 then 0 else (p.1 : ℚ) / (max_score : ℚ)))

/-- Embeds `_fallback_keyword_search` (rag_service.py lines 156-226).  The
`history` argument only shapes the prompt sent to the collaborator, whose
reply is the `llm` outcome. -/
def fallback_keyword_search (question : String) (document_chunks : List String)
    (history : List (String × String)) (previous_answer : Option String)
    (llm : Except Unit String) : String × List (String × ℚ) :=
  let sorted := sortDesc Prod.fst (scoredChunks question document_chunks)
  let relevant_chunks := (sorted.take 3).map Prod.snd
  if relevant_chunks = [] then
    if is_follow_up_question question then
      let recent := previous_answer.getD
        "I have already shared all the details the document contains so far."
      ("I\x27ve already shared the available insights from the document. Previous answer:\n"
         ++ recent
         ++ "\n\nIf you need something specific, try asking about a particular section or topic.",
       [])
    else
      ("I couldn\x27t find relevant information in the document related to that question.", [])
  else
    match llm with
    | .ok answer => (answer, keywordRetrieved question document_chunks)
    | .error _ =>
      ("I found relevant information but couldn\x27t process it. Please check your API configuration.",
       keywordRetrieved question document_chunks)

/-- Embeds `chat_with_rag` (rag_service.py lines 75-153).  `embedOk` is the
outcome of the query-embedding call of line 98, `llm` the outcome of the
Groq chat completion. -/
def chat_with_rag (question : String) (document_chunks : List String)
    (chunk_embeddings : Option (List (List ℚ))) (history : List (String × String))
    (embedOk : Bool) (simOf : List ℚ → ℚ) (llm : Except Unit String) :
    String × List (String × ℚ) :=
  let previous_answer := get_recent_assistant_answer history
  if document_chunks = [] then
    ("No document has been uploaded yet. Please upload a document first.", [])
  else
    match chunk_embeddings with
    | none => fallback_keyword_search question document_chunks history previous_answer llm
    | some rows =>
      if embedOk then
        let similar_chunks := find_similar_chunks simOf (some rows) document_chunks 4 (1/5)
        if similar_chunks = [] then
          fallback_keyword_search question document_chunks history previous_answer llm
        else
          match llm with
          | .ok answer => (answer, similar_chunks)
          | .error _ =>
            ("I found relevant information but couldn\x27t process it with AI. Here are the most relevant excerpts:\n\n"
               ++ joinSep "\n\n" ((similar_chunks.take 2).map Prod.fst),
             similar_chunks)
      else fallback_keyword_search question document_chunks history previous_answer llm

/-! ### Conversation store (conversation_store.py)

The store is a Python dict from conversation id to a mutable `Conversation`;
it is modeled as an association list with first-occurrence lookup and
replace-or-append update, which coincides with dict semantics because keys
stay unique.  `generate_embeddings` is an opaque fallible collaborator,
modeled by a function `E` into `Except Unit` supplied by the caller; reads
are modeled in state-passing style (value, resulting store) to make their
effect on the store part of the statement. -/

/-- Embeds the `Conversation` dataclass (conversation_store.py lines 15-20);
history entries are `(role, content)` pairs and vectors are rational. -/
structure Conversation where
  history : List (String × String)
  document_text : String
  document_chunks : List String
  chunk_embeddings : Option (List (List ℚ))
deriving DecidableEq

/-- The default `Conversation()` value. -/
def Conversation.empty : Conversation :=
  { history := [], document_text := "", document_chunks := [], chunk_embeddings := none }

/-- First-occurrence lookup in the association list (dict access). -/
def storeFind : List (String × Conversation) → String → Option Conversation
  | [], _ => none
  | (k, c) :: rest, cid => if k = cid then some c else storeFind rest cid

/-- Replace the binding of a key, or append a fresh binding (dict update). -/
def storeSet : List (String × Conversation) → String → Conversation → List (String × Conversation)
  | [], cid, c => [(cid, c)]
  | (k, c0) :: rest, cid, c =>
    if k = cid then (k, c) :: rest else (k, c0) :: storeSet rest cid c

/-- Embeds the `ConversationStore` class state (conversation_store.py lines
23-27). -/
structure ConversationStore where
  store : List (String × Conversation)
  document_uploads : ℕ
  query_count : ℕ
deriving DecidableEq

/-- A freshly constructed store. -/
def ConversationStore.empty : ConversationStore :=
  { store := [], document_uploads := 0, query_count := 0 }

/-- Embeds `start_conversation` (lines 29-32); the random token is supplied
as the `cid` argument. -/
def ConversationStore.start_conversation (s : ConversationStore) (cid : String) :
    ConversationStore :=
  { s with store := storeSet s.store cid Conversation.empty }

/-- Embeds `append_message` (lines 34-38): `setdefault` then append, and the
query counter is bumped for user messages. -/
def ConversationStore.append_message (s : ConversationStore) (cid role content : String) :
    ConversationStore :=
  let conv := (storeFind s.store cid).getD Conversation.empty
  let conv' := { conv with history := conv.history ++ [(role, content)] }
  { s with store := storeSet s.store cid conv',
           query_count := if role = "user" then s.query_count + 1 else s.query_count }

/-- Embeds `get_history` (lines 40-41): `dict.get` with a default, leaving
the store as it was. -/
def ConversationStore.get_history (s : ConversationStore) (cid : String) :
    List (String × String) × ConversationStore :=
  (((storeFind s.store cid).getD Conversation.empty).history, s)

/-- Embeds `ensure_conversation` (lines 43-46): create the conversation when
absent and return the identifier unchanged. -/
def ConversationStore.ensure_conversation (s : ConversationStore) (cid : String) :
    String × ConversationStore :=
  if (storeFind s.store cid).isSome then (cid, s)
  else (cid, { s with store := storeSet s.store cid Conversation.empty })

/-- Embeds `store_document` (lines 48-69): store the text, chunk it, then
try to embed; on failure or on an empty chunk list the vectors are set to
`none` and the upload counter is left alone. -/
def ConversationStore.store_document (s : ConversationStore)
    (E : List String → Except Unit (List (List ℚ))) (cid text : String) :
    ConversationStore :=
  let conv := (storeFind s.store cid).getD Conversation.empty
  let chunks := chunk_text_smart text 500 100
  if chunks = [] then
    let conv' := { conv with document_text := text, document_chunks := chunks,
                             chunk_embeddings := none }
    { s with store := storeSet s.store cid conv' }
  else
    match E chunks with
    | .ok em =>
      let conv' := { conv with document_text := text, document_chunks := chunks,
                               chunk_embeddings := some em }
      { s with store := storeSet s.store cid conv',
               document_uploads := s.document_uploads + 1 }
    | .error _ =>
      let conv' := { conv with document_text := text, document_chunks := chunks,
                               chunk_embeddings := none }
      { s with store := storeSet s.store cid conv' }

/-- Embeds `get_document_chunks` (lines 71-73). -/
def ConversationStore.get_document_chunks (s : ConversationStore) (cid : String) :
    List String × ConversationStore :=
  (((storeFind s.store cid).getD Conversation.empty).document_chunks, s)

/-- Embeds `get_chunk_embeddings` (lines 75-77). -/
def ConversationStore.get_chunk_embeddings (s : ConversationStore) (cid : String) :
    Option (List (List ℚ)) × ConversationStore :=
  (((storeFind s.store cid).getD Conversation.empty).chunk_embeddings, s)

/-- Embeds `get_stats` (lines 79-85): conversation count, successfully
indexed document count, user query count. -/
def ConversationStore.get_stats (s : ConversationStore) :
    (ℕ × ℕ × ℕ) × ConversationStore :=
  ((s.store.length, s.document_uploads, s.query_count), s)

/-- One public mutating operation on the store, for reasoning about
arbitrary operation sequences. -/
inductive Op where
  | start (cid : String)
  | ensure (cid : String)
  | append (cid role content : String)
  | storeDoc (cid text : String)
deriving DecidableEq

/-- Apply one operation to the store (embedding collaborator `E` fixed). -/
def applyOp (E : List String → Except Unit (List (List ℚ)))
    (s : ConversationStore) : Op → ConversationStore
  | .start cid => s.start_conversation cid
  | .ensure cid => (s.ensure_conversation cid).2
  | .append cid role content => s.append_message cid role content
  | .storeDoc cid text => s.store_document E cid text

/-- Run a sequence of operations from a freshly constructed store. -/
def runOps (E : List String → Except Unit (List (List ℚ))) (ops : List Op) :
    ConversationStore :=
  ops.foldl (applyOp E) ConversationStore.empty

/-- Alignment invariant of one conversation: whenever vectors are present
there is one per chunk. -/
def ConvAligned (c : Conversation) : Prop :=
  ∀ em, c.chunk_embeddings = some em → em.length = c.document_chunks.length

/-- Alignment invariant of the whole store. -/
def StoreAligned (s : ConversationStore) : Prop :=
  ∀ cid c, storeFind s.store cid = some c → ConvAligned c

/-- A conversation into which no document has been stored: empty chunks and
absent vectors. -/
def FreshDoc (s : ConversationStore) (cid : String) : Prop :=
  ∀ c, storeFind s.store cid = some c →
    c.document_chunks = [] ∧ c.chunk_embeddings = none

/-- Is this operation a document store into the given conversation? -/
def Op.storesInto (cid : String) : Op → Prop
  | .storeDoc cid' _ => cid' = cid
  | _ => False

/-! ### Helper lemmas about the string primitives -/

theorem dropWhile_head?_false {p : Char → Bool} :
    ∀ {l : List Char} {a : Char}, (l.dropWhile p).head? = some a → p a = false := by
  intro l
  induction l with
  | nil => intro a h; simp [List.dropWhile] at h
  | cons c rest ih =>
    intro a h
    by_cases hc : p c
    · rw [List.dropWhile_cons, if_pos hc] at h
      exact ih h
    · rw [List.dropWhile_cons, if_neg hc] at h
      simp only [List.head?_cons, Option.some.injEq] at h
      rw [← h]
      exact Bool.eq_false_iff.mpr hc

theorem dropWhile_eq_self_of_head? {p : Char → Bool} {l : List Char}
    (h : ∀ a, l.head? = some a → p a = false) : l.dropWhile p = l := by
  cases l with
  | nil => rfl
  | cons c rest =>
    rw [List.dropWhile_cons, if_neg]
    rw [h c rfl]
    simp

theorem dropWhile_dropWhile (p : Char → Bool) (l : List Char) :
    (l.dropWhile p).dropWhile p = l.dropWhile p := by
  apply dropWhile_eq_self_of_head?
  intro a h
  exact dropWhile_head?_false h

theorem getLast?_dropWhile (p : Char → Bool) :
    ∀ l : List Char, l.dropWhile p ≠ [] → (l.dropWhile p).getLast? = l.getLast? := by
  intro l
  induction l with
  | nil => intro h; exact absurd rfl h
  | cons c rest ih =>
    intro h
    by_cases hc : p c
    · rw [List.dropWhile_cons, if_pos hc] at h ⊢
      rw [ih h]
      cases rest with
      | nil => simp [List.dropWhile] at h
      | cons b t => rw [List.getLast?_cons_cons]
    · rw [List.dropWhile_cons, if_neg hc]

theorem length_dropWhile_le' (p : Char → Bool) :
    ∀ l : List Char, (l.dropWhile p).length ≤ l.length := by
  intro l
  induction l with
  | nil => simp
  | cons c rest ih =>
    by_cases hc : p c
    · rw [List.dropWhile_cons, if_pos hc]
      exact ih.trans (Nat.le_succ _)
    · rw [List.dropWhile_cons, if_neg hc]

theorem length_pyStrip_le (l : List Char) : (pyStrip l).length ≤ l.length := by
  unfold pyStrip
  rw [List.length_reverse]
  calc ((l.dropWhile isPySpace).reverse.dropWhile isPySpace).length
      ≤ (l.dropWhile isPySpace).reverse.length := length_dropWhile_le' _ _
    _ = (l.dropWhile isPySpace).length := List.length_reverse _
    _ ≤ l.length := length_dropWhile_le' _ _

theorem pyStrip_pyStrip (l : List Char) : pyStrip (pyStrip l) = pyStrip l := by
  have hA : ∀ m : List Char, (pyStrip m).reverse.dropWhile isPySpace = (pyStrip m).reverse := by
    intro m
    unfold pyStrip
    rw [List.reverse_reverse]
    exact dropWhile_dropWhile _ _
  have hB : ∀ m : List Char, (pyStrip m).dropWhile isPySpace = pyStrip m := by
    intro m
    by_cases hnil : (m.dropWhile isPySpace).reverse.dropWhile isPySpace = []
    · unfold pyStrip
      rw [hnil]
      rfl
    · apply dropWhile_eq_self_of_head?
      intro a ha
      unfold pyStrip at ha
      rw [List.head?_reverse] at ha
      rw [getLast?_dropWhile _ _ hnil, List.getLast?_reverse] at ha
      exact dropWhile_head?_false ha
  conv_lhs => rw [pyStrip]
  rw [hB l, hA l, List.reverse_reverse]

theorem splitOnNlNl_eq_single :
    ∀ l : List Char, hasBlankSep l = false → splitOnNlNl l = [l]
  | [], _ => rfl
  | [_], _ => rfl
  | c1 :: c2 :: rest, h => by
    have hcond : ¬(c1 = '\n' ∧ c2 = '\n') := by
      intro hc
      rw [hasBlankSep, if_pos hc] at h
      exact Bool.true_eq_false.mp h
    have hrest : hasBlankSep (c2 :: rest) = false := by
      rw [hasBlankSep, if_neg hcond] at h
      exact h
    rw [splitOnNlNl, if_neg hcond, splitOnNlNl_eq_single (c2 :: rest) hrest]
    rfl

/-! ### Claim C5: chunking input shorter than the target size -/

/-- C5 (counterexample): the claim that every input string shorter than
`target_size` yields exactly one chunk equal to the trimmed input fails on
the empty string (which yields no chunk at all) and on the input
`"a \n\nb"` (whose interior paragraph spacing is normalized, so the single
chunk differs from the trimmed input). -/
theorem C5_chunk_short_counterexample :
    chunk_text_smart "" 500 100 ≠ [(pyStrip ("" : String).toList).asString] ∧
    chunk_text_smart "a \n\nb" 500 100 ≠ [(pyStrip ("a \n\nb" : String).toList).asString] := by
  constructor <;> decide

/-- Behaviour of the paragraph loop on one paragraph that fits the chunk
size: it is taken whole as the final running chunk. -/
theorem paraLoop_single_small (cs : ℕ) (p : List Char) (h : p.length < cs) :
    paraLoop cs [p] [] [] = ([], p) := by
  rw [paraLoop.eq_def]
  simp only [List.length_nil, Nat.zero_add, List.isEmpty_nil]
  rw [if_pos (by simpa using h)]
  simp only [if_true]
  rw [paraLoop.eq_def]

/-- C5 (amended): for every input string shorter than `target_size` whose
trimmed form is non-empty and which contains no blank-line paragraph
separator, `chunk_text_smart` yields exactly one chunk, equal to the
trimmed input, for every overlap setting. -/
theorem C5_chunk_short_single (text : String) (chunk_size overlap : ℕ)
    (h1 : hasBlankSep text.toList = false)
    (h2 : pyStrip text.toList ≠ [])
    (h3 : text.toList.length < chunk_size) :
    chunk_text_smart text chunk_size overlap = [(pyStrip text.toList).asString] := by
  have hp : (pyStrip text.toList).length < chunk_size :=
    lt_of_le_of_lt (length_pyStrip_le _) h3
  have hne : (pyStrip text.toList).isEmpty = false := by
    cases hpp : pyStrip text.toList with
    | nil => exact absurd hpp h2
    | cons a t => rfl
  unfold chunk_text_smart chunkCore
  rw [splitOnNlNl_eq_single _ h1]
  simp only [List.map_cons, List.map_nil, List.filter_cons, hne, Bool.not_false,
    if_true, List.filter_nil]
  rw [paraLoop_single_small _ _ hp]
  have h2' : pyStrip text.data ≠ [] := h2
  simp [hne, pyStrip_pyStrip, h2']

/-! ### Claims C1 and C9: the similarity engine -/

theorem mem_scoredIndices {simOf : List ℚ → ℚ} {rows : List (List ℚ)}
    {min_similarity : ℚ} {p : ℚ × ℕ}
    (hp : p ∈ scoredIndices simOf rows min_similarity) :
    p.1 ∈ rows.map simOf ∧ p.2 < rows.length := by
  unfold scoredIndices at hp
  by_cases hkept : (enumFrom 0 (rows.map simOf)).filter
      (fun p => decide (min_similarity ≤ p.1)) = []
  · rw [if_pos hkept, mem_sortDesc] at hp
    have := mem_enumFrom 0 (rows.map simOf) p hp
    simpa using this
  · rw [if_neg hkept, mem_sortDesc] at hp
    have := mem_enumFrom 0 (rows.map simOf) p (List.mem_filter.mp hp).1
    simpa using this

theorem scoredIndices_ne_nil {simOf : List ℚ → ℚ} {rows : List (List ℚ)}
    {min_similarity : ℚ} (h : rows ≠ []) :
    scoredIndices simOf rows min_similarity ≠ [] := by
  unfold scoredIndices
  have hsims : rows.map simOf ≠ [] := by simpa using h
  by_cases hkept : (enumFrom 0 (rows.map simOf)).filter
      (fun p => decide (min_similarity ≤ p.1)) = []
  · rw [if_pos hkept]
    exact sortDesc_ne_nil _ (enumFrom_ne_nil 0 hsims)
  · rw [if_neg hkept]
    exact sortDesc_ne_nil _ hkept

theorem pairwise_scoredIndices (simOf : List ℚ → ℚ) (rows : List (List ℚ))
    (min_similarity : ℚ) :
    (scoredIndices simOf rows min_similarity).Pairwise (fun x y => y.1 ≤ x.1) := by
  unfold scoredIndices
  by_cases hkept : (enumFrom 0 (rows.map simOf)).filter
      (fun p => decide (min_similarity ≤ p.1)) = []
  · rw [if_pos hkept]; exact pairwise_sortDesc Prod.fst _
  · rw [if_neg hkept]; exact pairwise_sortDesc Prod.fst _

theorem length_scoredIndices_all_low {simOf : List ℚ → ℚ} {rows : List (List ℚ)}
    {min_similarity : ℚ} (h : ∀ x ∈ rows.map simOf, x < min_similarity) :
    (scoredIndices simOf rows min_similarity).length = rows.length := by
  unfold scoredIndices
  have hkept : (enumFrom 0 (rows.map simOf)).filter
      (fun p => decide (min_similarity ≤ p.1)) = [] := by
    rw [List.filter_eq_nil_iff]
    intro p hp
    have h1 := (mem_enumFrom 0 (rows.map simOf) p hp).1
    simpa using not_le_of_lt (h p.1 h1)
  rw [if_pos hkept, length_sortDesc, length_enumFrom, List.length_map]

/-- C1: `find_similar_chunks` returns the empty sequence exactly when the
chunk vectors are absent or empty; as soon as they are non-empty (with the
call-site preconditions that `top_k` is positive and there is a chunk text
for every vector) the result is non-empty for every threshold, and when no
score reaches the threshold the fallback still returns `top_k` chunks
(fewer only when there are fewer vectors). -/
theorem C1_similarity_never_empty (simOf : List ℚ → ℚ) (chunks : List String)
    (top_k : ℕ) (min_similarity : ℚ) :
    find_similar_chunks simOf none chunks top_k min_similarity = [] ∧
    find_similar_chunks simOf (some []) chunks top_k min_similarity = [] ∧
    ∀ rows : List (List ℚ), rows ≠ [] → rows.length ≤ chunks.length → 0 < top_k →
      find_similar_chunks simOf (some rows) chunks top_k min_similarity ≠ [] ∧
      ((∀ x ∈ rows.map simOf, x < min_similarity) →
        (find_similar_chunks simOf (some rows) chunks top_k min_similarity).length
          = min top_k rows.length) := by
  refine ⟨rfl, by simp [find_similar_chunks], ?_⟩
  intro rows hrows hlen htop
  have hlen0 : ¬(rows.length = 0) := by simpa using hrows
  have hfilter : ∀ n : ℕ,
      ((scoredIndices simOf rows min_similarity).take n).filter
        (fun p => decide (p.2 < chunks.length)) =
      (scoredIndices simOf rows min_similarity).take n := by
    intro n
    rw [List.filter_eq_self]
    intro p hp
    have hmem : p ∈ scoredIndices simOf rows min_similarity :=
      List.mem_of_mem_take hp
    exact decide_eq_true (lt_of_lt_of_le (mem_scoredIndices hmem).2 hlen)
  constructor
  · simp only [find_similar_chunks, if_neg hlen0]
    rw [hfilter]
    intro hcon
    rw [List.map_eq_nil] at hcon
    have h1 : ((scoredIndices simOf rows min_similarity).take top_k).length = 0 := by
      rw [hcon]; rfl
    rw [List.length_take] at h1
    have h2 := @scoredIndices_ne_nil simOf rows min_similarity hrows
    have h3 : (scoredIndices simOf rows min_similarity).length ≠ 0 := by
      simpa [List.length_eq_zero] using h2
    omega
  · intro hlow
    simp only [find_similar_chunks, if_neg hlen0]
    rw [hfilter, List.length_map, List.length_take,
      length_scoredIndices_all_low hlow]

/-- C9: for every input, the similarity engine returns at most `top_k`
entries, ordered by non-increasing score (this covers the above-threshold
branch and the below-threshold fallback branch alike). -/
theorem C9_similarity_sorted_topk (simOf : List ℚ → ℚ)
    (chunk_embeddings : Option (List (List ℚ))) (chunks : List String)
    (top_k : ℕ) (min_similarity : ℚ) :
    (find_similar_chunks simOf chunk_embeddings chunks top_k min_similarity).length ≤ top_k ∧
    (find_similar_chunks simOf chunk_embeddings chunks top_k min_similarity).Pairwise
      (fun a b => b.2 ≤ a.2) := by
  match chunk_embeddings with
  | none => simp [find_similar_chunks]
  | some rows =>
    by_cases hlen0 : rows.length = 0
    · simp [find_similar_chunks, hlen0]
    · simp only [find_similar_chunks, if_neg hlen0]
      constructor
      · calc ((((scoredIndices simOf rows min_similarity).take top_k).filter
              (fun p => decide (p.2 < chunks.length))).map
                (fun p => (chunks.getD p.2 "", p.1))).length
            = (((scoredIndices simOf rows min_similarity).take top_k).filter
                (fun p => decide (p.2 < chunks.length))).length := List.length_map _ _
          _ ≤ ((scoredIndices simOf rows min_similarity).take top_k).length :=
              List.length_filter_le _ _
          _ ≤ top_k := by rw [List.length_take]; exact min_le_left _ _
      · rw [List.pairwise_map]
        have h1 := pairwise_scoredIndices simOf rows min_similarity
        have h2 := h1.sublist (List.take_sublist top_k _)
        exact h2.sublist (List.filter_sublist _)

/-- C1 (witness): the similarity engine applied at concrete inputs, with a
threshold that no score reaches. -/
theorem C1_similarity_never_empty_witness :
    ([[(1 : ℚ)], [(0 : ℚ)]] : List (List ℚ)) ≠ [] ∧
    ([[(1 : ℚ)], [(0 : ℚ)]] : List (List ℚ)).length ≤ (["a", "b"] : List String).length ∧
    0 < 1 ∧
    (find_similar_chunks (fun v => v.headD 0) (some [[(1 : ℚ)], [(0 : ℚ)]])
        ["a", "b"] 1 2 ≠ [] ∧
      ((∀ x ∈ ([[(1 : ℚ)], [(0 : ℚ)]] : List (List ℚ)).map (fun v => v.headD 0), x < 2) →
        (find_similar_chunks (fun v => v.headD 0) (some [[(1 : ℚ)], [(0 : ℚ)]])
            ["a", "b"] 1 2).length = min 1 2)) :=
  ⟨by decide, by decide, by decide,
    ((C1_similarity_never_empty (fun v => v.headD 0) ["a", "b"] 1 2).2.2
      [[(1 : ℚ)], [(0 : ℚ)]] (by decide) (by decide) (by decide))⟩

/-! ### Claims C2 and C6: the keyword fallback engine -/

theorem scoredChunks_eq_nil {question : String} {chunks : List String}
    (h : ∀ c ∈ chunks, keywordScore question c = 0) :
    scoredChunks question chunks = [] := by
  unfold scoredChunks
  rw [List.filter_eq_nil_iff]
  intro p hp
  rcases List.mem_map.mp hp with ⟨c, hc, rfl⟩
  simp [h c hc]

theorem scoredChunks_ne_nil {question : String} {chunks : List String}
    (h : ∃ c ∈ chunks, 0 < keywordScore question c) :
    scoredChunks question chunks ≠ [] := by
  rcases h with ⟨c, hc, hpos⟩
  have hmem : (keywordScore question c, c) ∈ scoredChunks question chunks := by
    unfold scoredChunks
    rw [List.mem_filter]
    exact ⟨List.mem_map_of_mem _ hc, decide_eq_true hpos⟩
  exact List.ne_nil_of_mem hmem

/-- On a question with no positively scored chunk, the fallback reduces to
the two templated no-evidence responses. -/
theorem fallback_no_match (question : String) (chunks : List String)
    (history : List (String × String)) (prev : Option String)
    (llm : Except Unit String)
    (hscored : scoredChunks question chunks = []) :
    fallback_keyword_search question chunks history prev llm =
      if is_follow_up_question question then
        ("I\x27ve already shared the available insights from the document. Previous answer:\n"
           ++ prev.getD "I have already shared all the details the document contains so far."
           ++ "\n\nIf you need something specific, try asking about a particular section or topic.",
         [])
      else
        ("I couldn\x27t find relevant information in the document related to that question.", []) := by
  unfold fallback_keyword_search
  rw [hscored]
  simp [sortDesc]

/-- The classifier of rag_service.py lines 236-250 agrees with the condition
stated by the specification. -/
theorem is_follow_up_iff_spec (question : String) :
    is_follow_up_question question = true ↔ followUpSpec question := by
  unfold is_follow_up_question followUpSpec
  by_cases hq : (pyLower (pyStrip question.toList)).isEmpty
  · have hnil : pyStrip question.toList = [] := by
      have h1 := List.isEmpty_iff.mp hq
      have h2 : (pyStrip question.toList).map Char.toLower = [] := h1
      simpa using h2
    rw [if_pos hq]
    constructor
    · intro hcon; simp at hcon
    · rintro ⟨h1, _⟩; exact absurd hnil h1
  · have hne : ¬ pyStrip question.toList = [] := by
      intro hcon
      apply hq
      unfold pyLower
      rw [hcon]
      rfl
    rw [if_neg hq]
    simp only [ne_eq, hne, not_false_eq_true, true_and,
      Bool.or_eq_true, List.any_eq_true, decide_eq_true_eq]

/-- C2: when no chunk scores above zero the keyword fallback returns no
evidence; the follow-up classification is exactly the stated condition, and
the answer restates the previous assistant answer from history on a
follow-up, or reports that nothing relevant was found otherwise. -/
theorem C2_keyword_no_match_followup (question : String) (chunks : List String)
    (history : List (String × String)) (llm : Except Unit String)
    (h : ∀ c ∈ chunks, keywordScore question c = 0) :
    (fallback_keyword_search question chunks history
        (get_recent_assistant_answer history) llm).2 = [] ∧
    (is_follow_up_question question = true ↔ followUpSpec question) ∧
    (is_follow_up_question question = true →
      ∀ a, get_recent_assistant_answer history = some a →
        a.toList <:+: (fallback_keyword_search question chunks history
          (get_recent_assistant_answer history) llm).1.toList) ∧
    (is_follow_up_question question = false →
      (fallback_keyword_search question chunks history
          (get_recent_assistant_answer history) llm).1 =
        "I couldn\x27t find relevant information in the document related to that question.") := by
  have hfb := fallback_no_match question chunks history
    (get_recent_assistant_answer history) llm (scoredChunks_eq_nil h)
  refine ⟨?_, is_follow_up_iff_spec question, ?_, ?_⟩
  · rw [hfb]
    by_cases hf : is_follow_up_question question <;> simp [hf]
  · intro hf a ha
    rw [hfb, if_pos hf, ha]
    refine ⟨("I\x27ve already shared the available insights from the document. Previous answer:\n" : String).data,
      ("\n\nIf you need something specific, try asking about a particular section or topic." : String).data, ?_⟩
    simp [String.data_append, List.append_assoc, Option.getD]
  · intro hf
    rw [hfb, if_neg (by simp [hf])]

theorem mem_sorted_scoredChunks {question : String} {chunks : List String}
    {p : ℕ × String} (hp : p ∈ sortDesc Prod.fst (scoredChunks question chunks)) :
    p.1 = keywordScore question p.2 ∧ 0 < p.1 ∧ p.1 ≤ maxRawScore question chunks := by
  have hp' := (mem_sortDesc Prod.fst p _).mp hp
  unfold scoredChunks at hp'
  rcases List.mem_filter.mp hp' with ⟨hm, hg⟩
  rcases List.mem_map.mp hm with ⟨c, _, rfl⟩
  refine ⟨rfl, of_decide_eq_true hg, ?_⟩
  exact le_foldr_max _ _ (List.mem_map_of_mem Prod.fst hp)

theorem maxRawScore_pos {question : String} {chunks : List String}
    (h : scoredChunks question chunks ≠ []) :
    0 < maxRawScore question chunks := by
  have hs : sortDesc Prod.fst (scoredChunks question chunks) ≠ [] :=
    sortDesc_ne_nil _ h
  cases hsort : sortDesc Prod.fst (scoredChunks question chunks) with
  | nil => exact absurd hsort hs
  | cons p t =>
    have hp : p ∈ sortDesc Prod.fst (scoredChunks question chunks) := by
      rw [hsort]; exact List.mem_cons_self p t
    rcases mem_sorted_scoredChunks hp with ⟨_, hpos, hle⟩
    omega

/-- General-membership version of `List.Pairwise` weakening. -/
theorem pairwise_imp_mem {α : Type} {R S : α → α → Prop} :
    ∀ {l : List α}, (∀ a ∈ l, ∀ b ∈ l, R a b → S a b) → l.Pairwise R → l.Pairwise S
  | [], _, _ => List.Pairwise.nil
  | a :: l, H, h => by
    rcases List.pairwise_cons.mp h with ⟨ha, hl⟩
    refine List.pairwise_cons.mpr ⟨?_, ?_⟩
    · intro b hb
      exact H a (List.mem_cons_self a l) b (List.mem_cons_of_mem a hb) (ha b hb)
    · exact pairwise_imp_mem
        (fun x hx y hy => H x (List.mem_cons_of_mem a hx) y (List.mem_cons_of_mem a hy)) hl

/-- Shape of every evidence entry produced by the keyword path when some
chunk scored positively. -/
theorem keywordRetrieved_spec (question : String) (chunks : List String)
    (h : scoredChunks question chunks ≠ []) :
    (keywordRetrieved question chunks).length ≤ 3 ∧
    (∀ e ∈ keywordRetrieved question chunks,
      e.2 = (keywordScore question e.1 : ℚ) / (maxRawScore question chunks : ℚ) ∧
      0 < e.2 ∧ e.2 ≤ 1) ∧
    (keywordRetrieved question chunks).Pairwise
      (fun a b => keywordScore question b.1 ≤ keywordScore question a.1) := by
  have hmax := maxRawScore_pos h
  have hmaxQ : (0 : ℚ) < (maxRawScore question chunks : ℚ) := by exact_mod_cast hmax
  unfold keywordRetrieved
  rw [if_neg h]
  refine ⟨?_, ?_, ?_⟩
  · rw [List.length_map, List.length_take]
    exact min_le_left _ _
  · intro e he
    rcases List.mem_map.mp he with ⟨p, hp, rfl⟩
    have hsp := mem_sorted_scoredChunks (List.mem_of_mem_take hp)
    rw [if_neg (Nat.pos_iff_ne_zero.mp hmax)]
    refine ⟨by rw [hsp.1], ?_, ?_⟩
    · exact div_pos (by exact_mod_cast hsp.2.1) hmaxQ
    · exact (div_le_one hmaxQ).mpr (by exact_mod_cast hsp.2.2)
  · rw [List.pairwise_map]
    have h1 := (pairwise_sortDesc Prod.fst (scoredChunks question chunks)).sublist
      (List.take_sublist 3 _)
    refine pairwise_imp_mem ?_ h1
    intro p hp q hq hpq
    have hps := mem_sorted_scoredChunks (List.mem_of_mem_take hp)
    have hqs := mem_sorted_scoredChunks (List.mem_of_mem_take hq)
    simpa [hps.1, hqs.1] using hpq

/-- C6: when some chunk has positive lexical score, the keyword fallback
returns at most three entries, each normalized by the maximum raw score over
all scored chunks, hence in the half-open interval (0, 1], in descending
raw-score order — whether or not the generation call succeeds. -/
theorem C6_keyword_normalized_scores (question : String) (chunks : List String)
    (history : List (String × String)) (prev : Option String)
    (llm : Except Unit String)
    (h : ∃ c ∈ chunks, 0 < keywordScore question c) :
    (fallback_keyword_search question chunks history prev llm).2 =
      keywordRetrieved question chunks ∧
    (fallback_keyword_search question chunks history prev llm).2.length ≤ 3 ∧
    (∀ e ∈ (fallback_keyword_search question chunks history prev llm).2,
      e.2 = (keywordScore question e.1 : ℚ) / (maxRawScore question chunks : ℚ) ∧
      0 < e.2 ∧ e.2 ≤ 1) ∧
    (fallback_keyword_search question chunks history prev llm).2.Pairwise
      (fun a b => keywordScore question b.1 ≤ keywordScore question a.1) := by
  have hscored := scoredChunks_ne_nil h
  have hrel : ((sortDesc Prod.fst (scoredChunks question chunks)).take 3).map Prod.snd ≠ [] := by
    have h1 : 0 < ((sortDesc Prod.fst (scoredChunks question chunks)).take 3).length := by
      rw [List.length_take, lt_min_iff]
      refine ⟨by omega, ?_⟩
      rw [length_sortDesc]
      have : scoredChunks question chunks ≠ [] := hscored
      cases hc : scoredChunks question chunks with
      | nil => exact absurd hc this
      | cons a t => simp
    intro hcon
    rw [← List.length_eq_zero] at hcon
    rw [List.length_map] at hcon
    omega
  have hfb : (fallback_keyword_search question chunks history prev llm).2 =
      keywordRetrieved question chunks := by
    unfold fallback_keyword_search
    rw [if_neg hrel]
    cases llm with
    | ok a => rfl
    | error e => rfl
  rcases keywordRetrieved_spec question chunks hscored with ⟨h1, h2, h3⟩
  rw [hfb]
  exact ⟨rfl, h1, h2, h3⟩

/-! ### Claim C7: evidence survives generation failure -/

/-- The kept-evidence list of the keyword fallback is non-empty as soon as
some chunk scored positively. -/
theorem relevant_ne_nil {question : String} {chunks : List String}
    (h : scoredChunks question chunks ≠ []) :
    ((sortDesc Prod.fst (scoredChunks question chunks)).take 3).map Prod.snd ≠ [] := by
  have h1 : 0 < ((sortDesc Prod.fst (scoredChunks question chunks)).take 3).length := by
    rw [List.length_take, lt_min_iff]
    refine ⟨by omega, ?_⟩
    rw [length_sortDesc]
    cases hc : scoredChunks question chunks with
    | nil => exact absurd hc h
    | cons a t => simp
  intro hcon
  rw [← List.length_eq_zero, List.length_map] at hcon
  omega

/-- The evidence component of the keyword fallback does not depend on the
outcome of the generation call. -/
theorem fallback_snd_llm_indep (question : String) (chunks : List String)
    (history : List (String × String)) (prev : Option String)
    (l1 l2 : Except Unit String) :
    (fallback_keyword_search question chunks history prev l1).2 =
    (fallback_keyword_search question chunks history prev l2).2 := by
  unfold fallback_keyword_search
  by_cases hrel : ((sortDesc Prod.fst (scoredChunks question chunks)).take 3).map Prod.snd = []
  · rw [if_pos hrel, if_pos hrel]
  · rw [if_neg hrel, if_neg hrel]
    cases l1 <;> cases l2 <;> rfl

/-- A sandwich factorisation survives extension on the left. -/
theorem sandwich_extend_left {x j : List Char} (pre : List Char) (h : x <:+: j) :
    x <:+: pre ++ j := by
  rcases h with ⟨s, t, rfl⟩
  exact ⟨pre ++ s, t, by simp [List.append_assoc]⟩

/-- String form of `sandwich_extend_left`. -/
theorem sandwich_extend_left_str {x j : String} (pre : String) (h : x.toList <:+: j.toList) :
    x.toList <:+: (pre ++ j).toList := by
  show x.data <:+: (pre ++ j).data
  rw [String.data_append pre j]
  exact sandwich_extend_left pre.data h

/-- Every string joined by `joinSep` occurs inside the join. -/
theorem mem_joinSep (sep : String) :
    ∀ (l : List String) (x : String), x ∈ l → x.toList <:+: (joinSep sep l).toList
  | [], x, hx => absurd hx (List.not_mem_nil x)
  | [y], x, hx => by
    rcases List.mem_singleton.mp hx with rfl
    exact List.infix_rfl
  | y :: z :: rest, x, hx => by
    have hj : joinSep sep (y :: z :: rest) = y ++ sep ++ joinSep sep (z :: rest) := rfl
    rw [hj]
    rcases List.mem_cons.mp hx with rfl | hx
    · refine ⟨[], (sep ++ joinSep sep (z :: rest)).toList, ?_⟩
      show [] ++ x.data ++ (sep ++ joinSep sep (z :: rest)).data = (x ++ sep ++ joinSep sep (z :: rest)).data
      simp [String.data_append, List.append_assoc]
    · have ih := mem_joinSep sep (z :: rest) x hx
      rcases ih with ⟨s, t, hst⟩
      have hst' : s ++ x.data ++ t = (joinSep sep (z :: rest)).data := hst
      refine ⟨(y ++ sep).toList ++ s, t, ?_⟩
      show (y ++ sep).data ++ s ++ x.data ++ t = (y ++ sep ++ joinSep sep (z :: rest)).data
      rw [String.data_append (y ++ sep), ← hst']
      simp [List.append_assoc]

/-- C7: when the generation collaborator fails, the evidence list equals the
one returned on success; on the semantic path the plain-text answer contains
each of the top-two retrieved chunks and the full retrieved list is still
returned; on the keyword path the generic message is returned together with
the normalized scored chunks. -/
theorem C7_generation_failure_evidence (question : String) (document_chunks : List String)
    (chunk_embeddings : Option (List (List ℚ))) (history : List (String × String))
    (embedOk : Bool) (simOf : List ℚ → ℚ)
    (hne : document_chunks ≠ []) :
    (∀ a : String,
      (chat_with_rag question document_chunks chunk_embeddings history embedOk simOf
        (Except.error ())).2 =
      (chat_with_rag question document_chunks chunk_embeddings history embedOk simOf
        (Except.ok a)).2) ∧
    (∀ rows, chunk_embeddings = some rows → embedOk = true →
      find_similar_chunks simOf (some rows) document_chunks 4 (1/5) ≠ [] →
      (chat_with_rag question document_chunks chunk_embeddings history embedOk simOf
          (Except.error ())).2 =
        find_similar_chunks simOf (some rows) document_chunks 4 (1/5) ∧
      ∀ p ∈ (find_similar_chunks simOf (some rows) document_chunks 4 (1/5)).take 2,
        p.1.toList <:+: (chat_with_rag question document_chunks chunk_embeddings history
          embedOk simOf (Except.error ())).1.toList) ∧
    (chunk_embeddings = none →
      (∃ c ∈ document_chunks, 0 < keywordScore question c) →
      (chat_with_rag question document_chunks chunk_embeddings history embedOk simOf
          (Except.error ())).1 =
        "I found relevant information but couldn\x27t process it. Please check your API configuration." ∧
      (chat_with_rag question document_chunks chunk_embeddings history embedOk simOf
          (Except.error ())).2 = keywordRetrieved question document_chunks) := by
  refine ⟨?_, ?_, ?_⟩
  · intro a
    cases chunk_embeddings with
    | none =>
      simp only [chat_with_rag]
      rw [if_neg hne, if_neg hne]
      exact fallback_snd_llm_indep _ _ _ _ _ _
    | some rows =>
      cases embedOk with
      | false =>
        simp only [chat_with_rag, Bool.false_eq_true, if_false]
        rw [if_neg hne, if_neg hne]
        exact fallback_snd_llm_indep _ _ _ _ _ _
      | true =>
        simp only [chat_with_rag, if_true]
        rw [if_neg hne, if_neg hne]
        by_cases hsim : find_similar_chunks simOf (some rows) document_chunks 4 (1/5) = []
        · rw [if_pos hsim, if_pos hsim]
          exact fallback_snd_llm_indep _ _ _ _ _ _
        · rw [if_neg hsim, if_neg hsim]
  · rintro rows rfl rfl hsim
    simp only [chat_with_rag, if_true]
    rw [if_neg hne, if_neg hsim]
    refine ⟨rfl, ?_⟩
    intro p hp
    exact sandwich_extend_left_str _
      (mem_joinSep "\n\n" _ p.1 (List.mem_map_of_mem Prod.fst hp))
  · rintro rfl hscore
    simp only [chat_with_rag]
    rw [if_neg hne]
    have hrel := relevant_ne_nil (scoredChunks_ne_nil hscore)
    simp only [fallback_keyword_search]
    rw [if_neg hrel]
    exact ⟨rfl, rfl⟩

/-- C7 (witness): the theorem applied on the semantic path with one chunk
and one vector. -/
theorem C7_generation_failure_evidence_witness :
    (["alpha beta"] : List String) ≠ [] ∧
    ((∀ a : String,
      (chat_with_rag "alpha" ["alpha beta"] (some [[1]]) [] true (fun v => v.headD 0)
        (Except.error ())).2 =
      (chat_with_rag "alpha" ["alpha beta"] (some [[1]]) [] true (fun v => v.headD 0)
        (Except.ok a)).2) ∧
    (∀ rows, (some [[1]] : Option (List (List ℚ))) = some rows → true = true →
      find_similar_chunks (fun v => v.headD 0) (some rows) ["alpha beta"] 4 (1/5) ≠ [] →
      (chat_with_rag "alpha" ["alpha beta"] (some [[1]]) [] true (fun v => v.headD 0)
          (Except.error ())).2 =
        find_similar_chunks (fun v => v.headD 0) (some rows) ["alpha beta"] 4 (1/5) ∧
      ∀ p ∈ (find_similar_chunks (fun v => v.headD 0) (some rows) ["alpha beta"] 4 (1/5)).take 2,
        p.1.toList <:+: (chat_with_rag "alpha" ["alpha beta"] (some [[1]]) [] true
          (fun v => v.headD 0) (Except.error ())).1.toList) ∧
    ((some [[1]] : Option (List (List ℚ))) = none →
      (∃ c ∈ (["alpha beta"] : List String), 0 < keywordScore "alpha" c) →
      (chat_with_rag "alpha" ["alpha beta"] (some [[1]]) [] true (fun v => v.headD 0)
          (Except.error ())).1 =
        "I found relevant information but couldn\x27t process it. Please check your API configuration." ∧
      (chat_with_rag "alpha" ["alpha beta"] (some [[1]]) [] true (fun v => v.headD 0)
          (Except.error ())).2 = keywordRetrieved "alpha" ["alpha beta"])) :=
  ⟨by decide,
    C7_generation_failure_evidence "alpha" ["alpha beta"] (some [[1]]) [] true
      (fun v => v.headD 0) (by decide)⟩

/-- C2 (witness): the theorem applied to the question `"what else"` against
a document with no lexical overlap and a prior assistant answer. -/
theorem C2_keyword_no_match_followup_witness :
    (∀ c ∈ (["zzz qqq"] : List String), keywordScore "what else" c = 0) ∧
    ((fallback_keyword_search "what else" ["zzz qqq"] [("assistant", "prior details")]
        (get_recent_assistant_answer [("assistant", "prior details")]) (Except.ok "x")).2 = [] ∧
      (is_follow_up_question "what else" = true ↔ followUpSpec "what else") ∧
      (is_follow_up_question "what else" = true →
        ∀ a, get_recent_assistant_answer [("assistant", "prior details")] = some a →
          a.toList <:+: (fallback_keyword_search "what else" ["zzz qqq"]
            [("assistant", "prior details")]
            (get_recent_assistant_answer [("assistant", "prior details")]) (Except.ok "x")).1.toList) ∧
      (is_follow_up_question "what else" = false →
        (fallback_keyword_search "what else" ["zzz qqq"] [("assistant", "prior details")]
            (get_recent_assistant_answer [("assistant", "prior details")]) (Except.ok "x")).1 =
          "I couldn\x27t find relevant information in the document related to that question.")) :=
  ⟨by decide,
    C2_keyword_no_match_followup "what else" ["zzz qqq"] [("assistant", "prior details")]
      (Except.ok "x") (by decide)⟩

/-- C6 (witness): the theorem applied to a question whose word occurs in two
of three chunks. -/
theorem C6_keyword_normalized_scores_witness :
    (∃ c ∈ (["alpha beta", "alpha", "zzz"] : List String), 0 < keywordScore "alpha" c) ∧
    ((fallback_keyword_search "alpha" ["alpha beta", "alpha", "zzz"] [] none (Except.error ())).2 =
        keywordRetrieved "alpha" ["alpha beta", "alpha", "zzz"] ∧
      (fallback_keyword_search "alpha" ["alpha beta", "alpha", "zzz"] [] none
          (Except.error ())).2.length ≤ 3 ∧
      (∀ e ∈ (fallback_keyword_search "alpha" ["alpha beta", "alpha", "zzz"] [] none
          (Except.error ())).2,
        e.2 = (keywordScore "alpha" e.1 : ℚ) / (maxRawScore "alpha" ["alpha beta", "alpha", "zzz"] : ℚ) ∧
        0 < e.2 ∧ e.2 ≤ 1) ∧
      (fallback_keyword_search "alpha" ["alpha beta", "alpha", "zzz"] [] none
          (Except.error ())).2.Pairwise
        (fun a b => keywordScore "alpha" b.1 ≤ keywordScore "alpha" a.1)) :=
  ⟨by decide,
    C6_keyword_normalized_scores "alpha" ["alpha beta", "alpha", "zzz"] [] none
      (Except.error ()) (by decide)⟩

/-! ### Store lemmas for claims C3, C4, C8 and C10 -/

theorem storeFind_storeSet_self :
    ∀ (l : List (String × Conversation)) (cid : String) (c : Conversation),
      storeFind (storeSet l cid c) cid = some c
  | [], cid, c => by simp [storeSet, storeFind]
  | (k, c0) :: rest, cid, c => by
    by_cases hk : k = cid
    · simp [storeSet, storeFind, hk]
    · simp only [storeSet, if_neg hk, storeFind, if_neg hk]
      exact storeFind_storeSet_self rest cid c

theorem storeFind_storeSet_other :
    ∀ (l : List (String × Conversation)) (cid j : String) (c : Conversation), j ≠ cid →
      storeFind (storeSet l cid c) j = storeFind l j
  | [], cid, j, c, h => by
    have h' : ¬ (cid = j) := fun hc => h hc.symm
    simp [storeSet, storeFind, h']
  | (k, c0) :: rest, cid, j, c, h => by
    by_cases hk : k = cid
    · subst hk
      have h' : ¬ (k = j) := fun hc => h hc.symm
      simp [storeSet, storeFind, h']
    · simp only [storeSet, if_neg hk, storeFind]
      by_cases hkj : k = j
      · rw [if_pos hkj, if_pos hkj]
      · rw [if_neg hkj, if_neg hkj]
        exact storeFind_storeSet_other rest cid j c h

theorem convAligned_empty : ConvAligned Conversation.empty := by
  intro em hem
  simp [Conversation.empty] at hem

theorem convAligned_getD {s : ConversationStore} (hs : StoreAligned s) (cid : String) :
    ConvAligned ((storeFind s.store cid).getD Conversation.empty) := by
  cases hfind : storeFind s.store cid with
  | none => simpa using convAligned_empty
  | some c => simpa using hs cid c hfind

/-- A store whose dictionary is an update of an aligned store with an
aligned conversation is aligned. -/
theorem storeAligned_of_store {s s' : ConversationStore} (hs : StoreAligned s) (cid : String)
    {c' : Conversation} (hc : ConvAligned c')
    (hstore : s'.store = storeSet s.store cid c') : StoreAligned s' := by
  intro j c hj
  rw [hstore] at hj
  by_cases hjc : j = cid
  · subst hjc
    rw [storeFind_storeSet_self] at hj
    cases hj
    exact hc
  · rw [storeFind_storeSet_other _ _ _ _ hjc] at hj
    exact hs j c hj

/-- Equation for `ensure_conversation` (conversation_store.py lines 43-46). -/
theorem ensure_snd (s : ConversationStore) (cid : String) :
    (s.ensure_conversation cid).2 =
      if (storeFind s.store cid).isSome = true then s
      else { s with store := storeSet s.store cid Conversation.empty } := by
  unfold ConversationStore.ensure_conversation
  by_cases h : (storeFind s.store cid).isSome <;> simp [h]

/-- A conversation updated by `store_document`: text and chunks replaced,
vectors as computed. -/
def withDoc (conv : Conversation) (text : String) (chunks : List String)
    (em : Option (List (List ℚ))) : Conversation :=
  { conv with document_text := text, document_chunks := chunks, chunk_embeddings := em }

theorem store_document_empty_store {s : ConversationStore}
    {E : List String → Except Unit (List (List ℚ))} {cid text : String}
    (h : chunk_text_smart text 500 100 = []) :
    (s.store_document E cid text).store =
      storeSet s.store cid (withDoc ((storeFind s.store cid).getD Conversation.empty)
        text (chunk_text_smart text 500 100) none) := by
  simp only [ConversationStore.store_document]
  rw [if_pos h]
  rfl

theorem store_document_empty_uploads {s : ConversationStore}
    {E : List String → Except Unit (List (List ℚ))} {cid text : String}
    (h : chunk_text_smart text 500 100 = []) :
    (s.store_document E cid text).document_uploads = s.document_uploads := by
  simp only [ConversationStore.store_document]
  rw [if_pos h]

theorem store_document_ok_store {s : ConversationStore}
    {E : List String → Except Unit (List (List ℚ))} {cid text : String}
    {em : List (List ℚ)} (hch : chunk_text_smart text 500 100 ≠ [])
    (hE : E (chunk_text_smart text 500 100) = Except.ok em) :
    (s.store_document E cid text).store =
      storeSet s.store cid (withDoc ((storeFind s.store cid).getD Conversation.empty)
        text (chunk_text_smart text 500 100) (some em)) := by
  simp only [ConversationStore.store_document]
  rw [if_neg hch, hE]
  rfl

theorem store_document_ok_uploads {s : ConversationStore}
    {E : List String → Except Unit (List (List ℚ))} {cid text : String}
    {em : List (List ℚ)} (hch : chunk_text_smart text 500 100 ≠ [])
    (hE : E (chunk_text_smart text 500 100) = Except.ok em) :
    (s.store_document E cid text).document_uploads = s.document_uploads + 1 := by
  simp only [ConversationStore.store_document]
  rw [if_neg hch, hE]

theorem store_document_err_store {s : ConversationStore}
    {E : List String → Except Unit (List (List ℚ))} {cid text : String}
    (hch : chunk_text_smart text 500 100 ≠ [])
    (hE : E (chunk_text_smart text 500 100) = Except.error ()) :
    (s.store_document E cid text).store =
      storeSet s.store cid (withDoc ((storeFind s.store cid).getD Conversation.empty)
        text (chunk_text_smart text 500 100) none) := by
  simp only [ConversationStore.store_document]
  rw [if_neg hch, hE]
  rfl

theorem store_document_err_uploads {s : ConversationStore}
    {E : List String → Except Unit (List (List ℚ))} {cid text : String}
    (hch : chunk_text_smart text 500 100 ≠ [])
    (hE : E (chunk_text_smart text 500 100) = Except.error ()) :
    (s.store_document E cid text).document_uploads = s.document_uploads := by
  simp only [ConversationStore.store_document]
  rw [if_neg hch, hE]

theorem storeAligned_applyOp {E : List String → Except Unit (List (List ℚ))}
    (hE : ∀ ts vs, E ts = Except.ok vs → vs.length = ts.length)
    {s : ConversationStore} (hs : StoreAligned s) (op : Op) :
    StoreAligned (applyOp E s op) := by
  cases op with
  | start cid => exact storeAligned_of_store hs cid convAligned_empty rfl
  | ensure cid =>
    by_cases h : (storeFind s.store cid).isSome = true
    · rw [show applyOp E s (Op.ensure cid) = (s.ensure_conversation cid).2 from rfl,
        ensure_snd, if_pos h]
      exact hs
    · rw [show applyOp E s (Op.ensure cid) = (s.ensure_conversation cid).2 from rfl,
        ensure_snd, if_neg h]
      exact storeAligned_of_store hs cid convAligned_empty rfl
  | append cid role content =>
    refine storeAligned_of_store hs cid ?_ rfl
    intro em hem
    exact convAligned_getD hs cid em hem
  | storeDoc cid text =>
    show StoreAligned (s.store_document E cid text)
    by_cases hch : chunk_text_smart text 500 100 = []
    · refine storeAligned_of_store hs cid ?_ (store_document_empty_store hch)
      intro em hem
      simp [withDoc] at hem
    · cases hEc : E (chunk_text_smart text 500 100) with
      | ok em =>
        refine storeAligned_of_store hs cid ?_ (store_document_ok_store hch hEc)
        intro em' hem'
        have hee : em = em' := by simpa [withDoc] using hem'
        subst hee
        have := hE _ _ hEc
        simpa [withDoc] using this
      | error e =>
        cases e
        refine storeAligned_of_store hs cid ?_ (store_document_err_store hch hEc)
        intro em hem
        simp [withDoc] at hem

theorem freshDoc_applyOp {E : List String → Except Unit (List (List ℚ))}
    {s : ConversationStore} {cid : String} (hs : FreshDoc s cid) (op : Op)
    (hop : ¬ op.storesInto cid) : FreshDoc (applyOp E s op) cid := by
  cases op with
  | start cid' =>
    intro c hc
    have hc' : storeFind (storeSet s.store cid' Conversation.empty) cid = some c := hc
    by_cases hcc : cid = cid'
    · subst hcc
      rw [storeFind_storeSet_self] at hc'
      cases hc'
      exact ⟨rfl, rfl⟩
    · rw [storeFind_storeSet_other _ _ _ _ hcc] at hc'
      exact hs c hc'
  | ensure cid' =>
    intro c hc
    rw [show applyOp E s (Op.ensure cid') = (s.ensure_conversation cid').2 from rfl,
      ensure_snd] at hc
    by_cases h : (storeFind s.store cid').isSome = true
    · rw [if_pos h] at hc
      exact hs c hc
    · rw [if_neg h] at hc
      have hc' : storeFind (storeSet s.store cid' Conversation.empty) cid = some c := hc
      by_cases hcc : cid = cid'
      · subst hcc
        rw [storeFind_storeSet_self] at hc'
        cases hc'
        exact ⟨rfl, rfl⟩
      · rw [storeFind_storeSet_other _ _ _ _ hcc] at hc'
        exact hs c hc'
  | append cid' role content =>
    intro c hc
    have hc' : storeFind (storeSet s.store cid'
        { (storeFind s.store cid').getD Conversation.empty with
          history := ((storeFind s.store cid').getD Conversation.empty).history
            ++ [(role, content)] }) cid = some c := hc
    by_cases hcc : cid = cid'
    · subst hcc
      rw [storeFind_storeSet_self] at hc'
      cases hc'
      cases hfind : storeFind s.store cid with
      | none => simp [hfind, Conversation.empty]
      | some c0 =>
        rcases hs c0 hfind with ⟨h1, h2⟩
        simp [hfind, h1, h2]
    · rw [storeFind_storeSet_other _ _ _ _ hcc] at hc'
      exact hs c hc'
  | storeDoc cid' text =>
    intro c hc
    have hcc : cid ≠ cid' := fun h => hop h.symm
    have hc0 : storeFind (s.store_document E cid' text).store cid = some c := hc
    by_cases hch : chunk_text_smart text 500 100 = []
    · rw [store_document_empty_store hch,
        storeFind_storeSet_other _ _ _ _ hcc] at hc0
      exact hs c hc0
    · cases hEc : E (chunk_text_smart text 500 100) with
      | ok em =>
        rw [store_document_ok_store hch hEc,
          storeFind_storeSet_other _ _ _ _ hcc] at hc0
        exact hs c hc0
      | error e =>
        cases e
        rw [store_document_err_store hch hEc,
          storeFind_storeSet_other _ _ _ _ hcc] at hc0
        exact hs c hc0

theorem storeAligned_foldl {E : List String → Except Unit (List (List ℚ))}
    (hE : ∀ ts vs, E ts = Except.ok vs → vs.length = ts.length) :
    ∀ (ops : List Op) (s : ConversationStore), StoreAligned s →
      StoreAligned (ops.foldl (applyOp E) s)
  | [], _, hs => hs
  | op :: ops, s, hs =>
    storeAligned_foldl hE ops _ (storeAligned_applyOp hE hs op)

theorem freshDoc_foldl {E : List String → Except Unit (List (List ℚ))} {cid : String} :
    ∀ (ops : List Op) (s : ConversationStore), FreshDoc s cid →
      (∀ op ∈ ops, ¬ op.storesInto cid) → FreshDoc (ops.foldl (applyOp E) s) cid
  | [], _, hs, _ => hs
  | op :: ops, s, hs, hops =>
    freshDoc_foldl ops _
      (freshDoc_applyOp hs op (hops op (List.mem_cons_self op ops)))
      (fun o ho => hops o (List.mem_cons_of_mem op ho))

/-! ### Claims C3, C4, C8 and C10: the conversation store -/

/-- C3: after any sequence of store operations (with the embedding
collaborator returning one vector per input on success), every stored
conversation has one vector per chunk whenever vectors are present, and a
conversation into which no document was ever stored has empty chunks and
absent vectors. -/
theorem C3_store_invariants (E : List String → Except Unit (List (List ℚ)))
    (hE : ∀ ts vs, E ts = Except.ok vs → vs.length = ts.length) (ops : List Op) :
    (∀ cid c, storeFind (runOps E ops).store cid = some c →
      ∀ em, c.chunk_embeddings = some em → em.length = c.document_chunks.length) ∧
    (∀ cid, (∀ op ∈ ops, ¬ op.storesInto cid) →
      ∀ c, storeFind (runOps E ops).store cid = some c →
        c.document_chunks = [] ∧ c.chunk_embeddings = none) := by
  constructor
  · intro cid c hc
    exact storeAligned_foldl hE ops ConversationStore.empty
      (fun j c' hj => by simp [ConversationStore.empty, storeFind] at hj) cid c hc
  · intro cid hops c hc
    exact freshDoc_foldl ops ConversationStore.empty
      (fun c' hj => by simp [ConversationStore.empty, storeFind] at hj) hops c hc

/-- Embedding collaborator that always succeeds with one unit vector per
chunk. -/
def embedConst : List String → Except Unit (List (List ℚ)) :=
  fun ts => Except.ok (ts.map (fun _ => [1]))

/-- Embedding collaborator that always raises. -/
def embedFail : List String → Except Unit (List (List ℚ)) :=
  fun _ => Except.error ()

/-- C3 (witness): the invariant after a concrete operation sequence. -/
theorem C3_store_invariants_witness :
    ((∀ cid c, storeFind (runOps embedConst
        [Op.start "a", Op.append "a" "user" "hi", Op.storeDoc "a" "hello world"]).store cid = some c →
      ∀ em, c.chunk_embeddings = some em → em.length = c.document_chunks.length) ∧
    (∀ cid, (∀ op ∈ [Op.start "a", Op.append "a" "user" "hi", Op.storeDoc "a" "hello world"],
        ¬ op.storesInto cid) →
      ∀ c, storeFind (runOps embedConst
        [Op.start "a", Op.append "a" "user" "hi", Op.storeDoc "a" "hello world"]).store cid = some c →
        c.document_chunks = [] ∧ c.chunk_embeddings = none)) :=
  C3_store_invariants embedConst
    (fun ts vs h => by
      cases h
      exact List.length_map ts _)
    [Op.start "a", Op.append "a" "user" "hi", Op.storeDoc "a" "hello world"]

/-- C4: when embedding raises, the chunks are still stored, the vectors are
absent, and the upload counter is unchanged; and the concrete scenario of
one successful upload followed by one failing upload reports one indexed
document, not two. -/
theorem C4_embedding_failure_policy (s : ConversationStore) (cid text : String)
    (E : List String → Except Unit (List (List ℚ)))
    (hfail : E (chunk_text_smart text 500 100) = Except.error ()) :
    ((∃ c, storeFind (s.store_document E cid text).store cid = some c ∧
       c.document_chunks = chunk_text_smart text 500 100 ∧ c.chunk_embeddings = none) ∧
     (s.store_document E cid text).document_uploads = s.document_uploads) ∧
    ((((ConversationStore.empty.store_document embedConst "a" "hello world"
        ).store_document embedFail "b" "hello world").get_stats).1.2.1 = 1) := by
  refine ⟨⟨?_, ?_⟩, by decide⟩
  · by_cases hch : chunk_text_smart text 500 100 = []
    · refine ⟨withDoc ((storeFind s.store cid).getD Conversation.empty)
        text (chunk_text_smart text 500 100) none, ?_, rfl, rfl⟩
      rw [store_document_empty_store hch]
      exact storeFind_storeSet_self _ _ _
    · refine ⟨withDoc ((storeFind s.store cid).getD Conversation.empty)
        text (chunk_text_smart text 500 100) none, ?_, rfl, rfl⟩
      rw [store_document_err_store hch hfail]
      exact storeFind_storeSet_self _ _ _
  · by_cases hch : chunk_text_smart text 500 100 = []
    · exact store_document_empty_uploads hch
    · exact store_document_err_uploads hch hfail

/-- C4 (witness): the theorem applied with a concrete always-failing
embedding collaborator. -/
theorem C4_embedding_failure_policy_witness :
    (embedFail (chunk_text_smart "hello world" 500 100) = Except.error ()) ∧
    (((∃ c, storeFind (ConversationStore.empty.store_document embedFail "a" "hello world").store "a"
          = some c ∧
        c.document_chunks = chunk_text_smart "hello world" 500 100 ∧
        c.chunk_embeddings = none) ∧
      (ConversationStore.empty.store_document embedFail "a" "hello world").document_uploads =
        ConversationStore.empty.document_uploads) ∧
     ((((ConversationStore.empty.store_document embedConst "a" "hello world"
         ).store_document embedFail "b" "hello world").get_stats).1.2.1 = 1)) :=
  ⟨rfl, C4_embedding_failure_policy ConversationStore.empty "a" "hello world" embedFail rfl⟩

/-- C8: reads on an unknown identifier return the empty view without
raising, writes lazily create the conversation, and `ensure_conversation`
is a no-op on a known identifier, creates an empty conversation on an
unknown one, and always returns the identifier it was given. -/
theorem C8_unknown_identifier (s : ConversationStore) (cid role content text : String)
    (E : List String → Except Unit (List (List ℚ))) :
    (s.ensure_conversation cid).1 = cid ∧
    ((storeFind s.store cid).isSome → (s.ensure_conversation cid).2 = s) ∧
    (storeFind s.store cid = none →
      (s.get_history cid).1 = [] ∧
      (s.get_document_chunks cid).1 = [] ∧
      (s.get_chunk_embeddings cid).1 = none ∧
      storeFind (s.ensure_conversation cid).2.store cid = some Conversation.empty ∧
      storeFind (s.append_message cid role content).store cid =
        some { history := [(role, content)], document_text := "",
               document_chunks := [], chunk_embeddings := none } ∧
      (storeFind (s.store_document E cid text).store cid).isSome) := by
  refine ⟨?_, ?_, ?_⟩
  · unfold ConversationStore.ensure_conversation
    by_cases h : (storeFind s.store cid).isSome <;> simp [h]
  · intro h
    unfold ConversationStore.ensure_conversation
    rw [if_pos h]
  · intro hnone
    refine ⟨?_, ?_, ?_, ?_, ?_, ?_⟩
    · show ((storeFind s.store cid).getD Conversation.empty).history = []
      rw [hnone]; rfl
    · show ((storeFind s.store cid).getD Conversation.empty).document_chunks = []
      rw [hnone]; rfl
    · show ((storeFind s.store cid).getD Conversation.empty).chunk_embeddings = none
      rw [hnone]; rfl
    · rw [ensure_snd, if_neg (by rw [hnone]; simp)]
      exact storeFind_storeSet_self _ _ _
    · exact (storeFind_storeSet_self s.store cid _).trans (by rw [hnone]; rfl)
    · by_cases hch : chunk_text_smart text 500 100 = []
      · rw [show (storeFind (s.store_document E cid text).store cid).isSome =
            (storeFind (s.store_document E cid text).store cid).isSome from rfl,
          store_document_empty_store hch, storeFind_storeSet_self]
        rfl
      · cases hEc : E (chunk_text_smart text 500 100) with
        | ok em =>
          rw [store_document_ok_store hch hEc, storeFind_storeSet_self]
          rfl
        | error e =>
          cases e
          rw [store_document_err_store hch hEc, storeFind_storeSet_self]
          rfl

/-- C8 (witness): the theorem applied to the empty store and a concrete
identifier. -/
theorem C8_unknown_identifier_witness :
    ((ConversationStore.empty.ensure_conversation "a").1 = "a" ∧
    ((storeFind ConversationStore.empty.store "a").isSome →
      (ConversationStore.empty.ensure_conversation "a").2 = ConversationStore.empty) ∧
    (storeFind ConversationStore.empty.store "a" = none →
      (ConversationStore.empty.get_history "a").1 = [] ∧
      (ConversationStore.empty.get_document_chunks "a").1 = [] ∧
      (ConversationStore.empty.get_chunk_embeddings "a").1 = none ∧
      storeFind (ConversationStore.empty.ensure_conversation "a").2.store "a" =
        some Conversation.empty ∧
      storeFind (ConversationStore.empty.append_message "a" "user" "hi").store "a" =
        some { history := [("user", "hi")], document_text := "",
               document_chunks := [], chunk_embeddings := none } ∧
      (storeFind (ConversationStore.empty.store_document embedFail "a" "doc").store "a").isSome)) :=
  C8_unknown_identifier ConversationStore.empty "a" "user" "hi" "doc" embedFail


/-- C10: the read operations of the conversation store return the stored
view and leave the store exactly as it was — no conversation is created for
an unknown identifier and no counter moves. -/
theorem C10_reads_do_not_mutate (s : ConversationStore) (cid : String) :
    (s.get_history cid).2 = s ∧
    (s.get_document_chunks cid).2 = s ∧
    (s.get_chunk_embeddings cid).2 = s ∧
    s.get_stats.2 = s ∧
    s.get_stats.1 = (s.store.length, s.document_uploads, s.query_count) :=
  ⟨rfl, rfl, rfl, rfl, rfl⟩

/-- C5 (witness): the amended theorem applied at a concrete input. -/
theorem C5_chunk_short_single_witness :
    hasBlankSep ("hello world" : String).toList = false ∧
    pyStrip ("hello world" : String).toList ≠ [] ∧
    ("hello world" : String).toList.length < 500 ∧
    chunk_text_smart "hello world" 500 100 = [(pyStrip ("hello world" : String).toList).asString] :=
  ⟨by decide, by decide, by decide,
    C5_chunk_short_single "hello world" 500 100 (by decide) (by decide) (by decide)⟩

end RagChatbot
